import Mathlib

set_option maxHeartbeats 1000000

namespace DockMon

/-- Modelled from the spec: the role taxonomy of §3 (`admin | user | readonly`).
The backend implementation (Python, not under `src/`) is missing; the UI source
(`UserModal.tsx`, `z.enum(['admin','user','readonly'])`) confirms the three values. -/
inductive Role where
  | admin
  | user
  | readonly
deriving DecidableEq

/-- Modelled from the spec: the three operation classes of the §4.3 capability table. -/
inductive Operation where
  | manageUsers
  | manageContainers
  | viewOnly
deriving DecidableEq

/-- Modelled from the spec: parsing of an acting caller's role value (§4.3); any
string other than the three role names is an unknown/corrupt role value. -/
def parseRole : String → Option Role
  | "admin" => some Role.admin
  | "user" => some Role.user
  | "readonly" => some Role.readonly
  | _ => none

/-- Modelled from the spec: the static capability table of §4.3. -/
def roleCan : Role → Operation → Bool
  | Role.admin, _ => true
  | Role.user, Operation.manageUsers => false
  | Role.user, _ => true
  | Role.readonly, Operation.viewOnly => true
  | Role.readonly, _ => false

/-- Modelled from the spec: `can(role, operation)` over a raw (possibly corrupt)
role string; an unknown role parses to `none` and is denied (§4.3 fail closed). -/
def can (roleStr : String) (op : Operation) : Bool :=
  match parseRole roleStr with
  | some r => roleCan r op
  | none => false

/-- Modelled from the spec: the error taxonomy of §7. -/
inductive DirError where
  | InvalidUsername
  | InvalidRole
  | InvalidCredential
  | DuplicateUsername
  | NotFound
  | Forbidden
  | SelfDeleteForbidden
  | LastAdminViolation
deriving DecidableEq

/-- Modelled from the spec: an opaque credential hash.  The hash algorithm is
explicitly out of scope (§1: "the core only specifies when a hash must change,
not how it is computed"), so hashing is modelled as an injective wrapper. -/
structure CredHash where
  val : String
deriving DecidableEq

/-- Modelled from the spec: hashing a secret (algorithm out of scope, §1). -/
def hashSecret (s : String) : CredHash := CredHash.mk s

/-- Modelled from the spec: the cryptographically random secret generator of
§4.1; freshness is modelled by a nonce the Directory increments on every
generation, so distinct calls yield distinct plaintexts. -/
def genSecret (nonce : Nat) : String :=
  String.mk (List.replicate (16 + nonce) 'x')

/-- Modelled from the spec: the User record of §3 (timestamps omitted: they are
set by out-of-scope login machinery and no claim mentions them). -/
structure User where
  id : Nat
  username : String
  displayName : Option String
  role : Role
  credentialHash : CredHash
  mustChangeCredential : Bool
  visibleTags : List String
  hiddenTags : List String
deriving DecidableEq

/-- Modelled from the spec: the Directory state of §4.4 — the authoritative
user list plus the id allocator and the generation nonce. -/
structure Directory where
  users : List User
  nextId : Nat
  nonce : Nat
deriving DecidableEq

/-- Number of admin-role users in the directory. -/
def countAdmins (d : Directory) : Nat :=
  (d.users.filter (fun u => decide (u.role = Role.admin))).length

/-- The directory contains at least one admin-role user (§3 invariant). -/
abbrev hasAdmin (d : Directory) : Prop :=
  ∃ u ∈ d.users, u.role = Role.admin

/-- Well-formed directory state: ids are below the allocator and unique
(§3: `id` is an opaque unique identifier assigned at creation), and at least
one admin exists (§3 invariant). -/
abbrev WF (d : Directory) : Prop :=
  (∀ u ∈ d.users, u.id < d.nextId) ∧ (d.users.map User.id).Nodup ∧ hasAdmin d

/-- Modelled from the spec: Credential Policy `issueInitial` (§4.1).  A present
secret must be 8..100 characters (bounds also in the source schema
`createUserSchema` of `UserModal.tsx`); an absent secret yields a generated
plaintext returned exactly once with `mustChange = true`. -/
def issueInitial (providedSecret : Option String) (nonce : Nat) :
    Except DirError (CredHash × Bool × Option String) :=
  match providedSecret with
  | some s =>
    if 8 ≤ s.length ∧ s.length ≤ 100 then
      Except.ok (hashSecret s, false, none)
    else
      Except.error DirError.InvalidCredential
  | none =>
    Except.ok (hashSecret (genSecret nonce), true, some (genSecret nonce))

/-- Username character class, from the source schema `createUserSchema`
(`UserModal.tsx`): regex `^[a-zA-Z0-9_-]+$`. -/
def validUsernameChar (c : Char) : Bool :=
  c.isAlpha || c.isDigit || c == '_' || c == '-'

/-- Username validity, from the source schema `createUserSchema`
(`UserModal.tsx`): 3..50 characters, letters/digits/underscore/hyphen. -/
def validUsername (s : String) : Bool :=
  decide (3 ≤ s.length) && decide (s.length ≤ 50) && s.toList.all validUsernameChar

/-- Modelled from the spec: Directory `create` (§4.4), checked phase.
Authorization first (§4.4 "before any mutation"), then username format,
uniqueness, role format, and the Credential Policy. -/
def createE (d : Directory) (actor : Nat × String) (username roleStr : String)
    (displayName : Option String) (secret : Option String)
    (visibleTags hiddenTags : List String) :
    Except DirError (Directory × User × Option String) :=
  if can actor.2 Operation.manageUsers = true then
    if validUsername username = true then
      if d.users.any (fun u => decide (u.username = username)) then
        Except.error DirError.DuplicateUsername
      else
        match parseRole roleStr with
        | none => Except.error DirError.InvalidRole
        | some role =>
          match issueInitial secret d.nonce with
          | Except.error e => Except.error e
          | Except.ok (h, mc, plain) =>
            let u : User :=
              { id := d.nextId, username := username, displayName := displayName,
                role := role, credentialHash := h, mustChangeCredential := mc,
                visibleTags := visibleTags, hiddenTags := hiddenTags }
            Except.ok ({ users := d.users ++ [u], nextId := d.nextId + 1,
                         nonce := d.nonce + 1 }, u, plain)
    else
      Except.error DirError.InvalidUsername
  else
    Except.error DirError.Forbidden

/-- Directory `create` as a state transformer: a failed call returns the
unchanged state together with the error (§7: no partial mutation). -/
def Directory.create (d : Directory) (actor : Nat × String) (username roleStr : String)
    (displayName : Option String) (secret : Option String)
    (visibleTags hiddenTags : List String) :
    Directory × Except DirError (User × Option String) :=
  match createE d actor username roleStr displayName secret visibleTags hiddenTags with
  | Except.error e => (d, Except.error e)
  | Except.ok (d2, u, p) => (d2, Except.ok (u, p))

/-- Modelled from the spec: Directory `update` (§4.4), checked phase.  The tag
lists replace the stored ones outright (§9: edit is always-replace, as the
source `editMutation` of `UserModal.tsx` sends `tagsToArray(...) || []`). -/
def updateE (d : Directory) (actor : Nat × String) (userId : Nat)
    (displayName : Option String) (role? : Option Role)
    (visibleTags hiddenTags : List String) :
    Except DirError (Directory × User) :=
  if can actor.2 Operation.manageUsers = true then
    match d.users.find? (fun u => decide (u.id = userId)) with
    | none => Except.error DirError.NotFound
    | some target =>
      if target.role = Role.admin ∧ role?.getD target.role ≠ Role.admin ∧
          countAdmins d = 1 then
        Except.error DirError.LastAdminViolation
      else
        let u2 : User :=
          { target with
            displayName := displayName,
            role := role?.getD target.role,
            visibleTags := visibleTags,
            hiddenTags := hiddenTags }
        Except.ok
          ({ d with users := d.users.map (fun u => if u.id = userId then u2 else u) },
           u2)
  else
    Except.error DirError.Forbidden

/-- Directory `update` as a state transformer. -/
def Directory.update (d : Directory) (actor : Nat × String) (userId : Nat)
    (displayName : Option String) (role? : Option Role)
    (visibleTags hiddenTags : List String) :
    Directory × Except DirError User :=
  match updateE d actor userId displayName role? visibleTags hiddenTags with
  | Except.error e => (d, Except.error e)
  | Except.ok (d2, u) => (d2, Except.ok u)

/-- Modelled from the spec: Directory `delete` (§4.4), checked phase.
Authorization first (§4.4), then the self-delete guard, then existence and the
last-admin guard. -/
def deleteE (d : Directory) (actor : Nat × String) (userId : Nat) :
    Except DirError Directory :=
  if can actor.2 Operation.manageUsers = true then
    if userId = actor.1 then
      Except.error DirError.SelfDeleteForbidden
    else
      match d.users.find? (fun u => decide (u.id = userId)) with
      | none => Except.error DirError.NotFound
      | some target =>
        if target.role = Role.admin ∧ countAdmins d = 1 then
          Except.error DirError.LastAdminViolation
        else
          Except.ok { d with users := d.users.filter (fun u => decide (u.id ≠ userId)) }
  else
    Except.error DirError.Forbidden

/-- Directory `delete` as a state transformer. -/
def Directory.delete (d : Directory) (actor : Nat × String) (userId : Nat) :
    Directory × Except DirError Unit :=
  match deleteE d actor userId with
  | Except.error e => (d, Except.error e)
  | Except.ok d2 => (d2, Except.ok ())

/-- Modelled from the spec: Directory `resetCredential` (§4.4), checked phase.
Always generates a fresh secret, persists the new hash with
`mustChange = true`, and returns the one-time plaintext. -/
def resetE (d : Directory) (actor : Nat × String) (userId : Nat) :
    Except DirError (Directory × String) :=
  if can actor.2 Operation.manageUsers = true then
    match d.users.find? (fun u => decide (u.id = userId)) with
    | none => Except.error DirError.NotFound
    | some target =>
      let u2 : User :=
        { target with
          credentialHash := hashSecret (genSecret d.nonce),
          mustChangeCredential := true }
      Except.ok
        ({ d with
           users := d.users.map (fun u => if u.id = userId then u2 else u),
           nonce := d.nonce + 1 },
         genSecret d.nonce)
  else
    Except.error DirError.Forbidden

/-- Directory `resetCredential` as a state transformer. -/
def Directory.resetCredential (d : Directory) (actor : Nat × String) (userId : Nat) :
    Directory × Except DirError String :=
  match resetE d actor userId with
  | Except.error e => (d, Except.error e)
  | Except.ok (d2, p) => (d2, Except.ok p)

/-- Non-empty intersection of two tag lists. -/
def intersects (a b : List String) : Bool :=
  a.any (fun t => b.contains t)

/-- Modelled from the spec: the Visibility Filter `isVisible` of §4.2.
Deny-list wins, then an empty allow-list means visible, else the allow-list
must intersect the resource's tags. -/
def isVisible (resourceTags visibleTags hiddenTags : List String) : Bool :=
  if intersects resourceTags hiddenTags then false
  else if visibleTags.isEmpty then true
  else intersects resourceTags visibleTags

/-- Both-ends whitespace trimming on the character list, translating the
JavaScript `String.prototype.trim` used by `tagsToArray` in `UserModal.tsx`. -/
def trimChars (l : List Char) : List Char :=
  ((l.dropWhile Char.isWhitespace).reverse.dropWhile Char.isWhitespace).reverse

/-- JavaScript `trim()` on a string, as used by `tagsToArray`. -/
def jsTrim (s : String) : String := String.mk (trimChars s.toList)

/-- From the source (`UserModal.tsx`): comma-separated tag string to the tag
array sent to the API; blank or whitespace-only input yields `none`. -/
def tagsToArray (tags : Option String) : Option (List String) :=
  match tags with
  | none => none
  | some t =>
    if jsTrim t = "" then none
    else some (((t.splitOn ",").map jsTrim).filter (fun s => 0 < s.length))

/-- One administrative request against the Directory (actor as id × role string). -/
inductive DirAction where
  | create (actor : Nat × String) (username roleStr : String)
      (displayName : Option String) (secret : Option String)
      (visibleTags hiddenTags : List String)
  | update (actor : Nat × String) (userId : Nat) (displayName : Option String)
      (role? : Option Role) (visibleTags hiddenTags : List String)
  | delete (actor : Nat × String) (userId : Nat)
  | reset (actor : Nat × String) (userId : Nat)

/-- Run one request, keeping the resulting state and the success/error outcome. -/
def applyActionFull (d : Directory) : DirAction → Directory × Except DirError Unit
  | DirAction.create a un rs dn sec vt ht =>
    let r := d.create a un rs dn sec vt ht
    (r.1, r.2.map (fun _ => ()))
  | DirAction.update a uid dn r? vt ht =>
    let r := d.update a uid dn r? vt ht
    (r.1, r.2.map (fun _ => ()))
  | DirAction.delete a uid =>
    let r := d.delete a uid
    (r.1, r.2.map (fun _ => ()))
  | DirAction.reset a uid =>
    let r := d.resetCredential a uid
    (r.1, r.2.map (fun _ => ()))

/-- The state after one request. -/
def applyAction (d : Directory) (act : DirAction) : Directory :=
  (applyActionFull d act).1

/-- The state after a sequence of requests. -/
def runActions (d : Directory) (acts : List DirAction) : Directory :=
  acts.foldl applyAction d

/-- Concrete admin user for witnesses. -/
def alice : User :=
  { id := 0, username := "alice", displayName := none, role := Role.admin,
    credentialHash := hashSecret "alicepw9", mustChangeCredential := false,
    visibleTags := [], hiddenTags := [] }

/-- Concrete standard user for witnesses. -/
def bob : User :=
  { id := 1, username := "bob", displayName := none, role := Role.user,
    credentialHash := hashSecret "bobpw999", mustChangeCredential := false,
    visibleTags := [], hiddenTags := [] }

/-- Concrete second admin for witnesses. -/
def carol : User :=
  { id := 2, username := "carol", displayName := none, role := Role.admin,
    credentialHash := hashSecret "carolpw9", mustChangeCredential := false,
    visibleTags := [], hiddenTags := [] }

/-- Concrete directory with exactly one admin. -/
def d0 : Directory := { users := [alice, bob], nextId := 2, nonce := 0 }

/-- Concrete edited variant of `bob` for the update witness. -/
def bobEdited : User :=
  { bob with
    displayName := some "Bobby",
    role := Role.readonly,
    visibleTags := [],
    hiddenTags := ["secret"] }

/-- Concrete directory after editing `bob` in `d0`. -/
def d0Edited : Directory := { d0 with users := [alice, bobEdited] }

/-- Concrete directory with two admins. -/
def d1 : Directory := { users := [alice, bob, carol], nextId := 3, nonce := 0 }

lemma dropWhile_head_false {α} {p : α → Bool} (l : List α) :
    ∀ (a : α) (t : List α), l.dropWhile p = a :: t → p a = false := by
  induction l with
  | nil => intro a t h; cases h
  | cons b bs ih =>
    intro a t h
    by_cases hb : p b
    · rw [List.dropWhile_cons, if_pos hb] at h
      exact ih a t h
    · rw [List.dropWhile_cons, if_neg hb] at h
      cases h
      simpa using hb

lemma dropWhile_eq_self_of_head {α} {p : α → Bool} (l : List α)
    (h : ∀ a t, l = a :: t → p a = false) : l.dropWhile p = l := by
  cases l with
  | nil => rfl
  | cons a t =>
    rw [List.dropWhile_cons, if_neg]
    simp [h a t rfl]

lemma dropWhile_dropWhile {α} {p : α → Bool} (l : List α) :
    (l.dropWhile p).dropWhile p = l.dropWhile p :=
  dropWhile_eq_self_of_head _ (fun a t h => dropWhile_head_false l a t h)

lemma getLast?_dropWhile {α} {p : α → Bool} (l : List α) :
    l.dropWhile p = [] ∨ (l.dropWhile p).getLast? = l.getLast? := by
  induction l with
  | nil => exact Or.inl rfl
  | cons a t ih =>
    by_cases ha : p a
    · rw [List.dropWhile_cons, if_pos ha]
      by_cases h0 : t.dropWhile p = []
      · exact Or.inl h0
      · right
        rcases ih with h1 | h1
        · exact absurd h1 h0
        · rw [h1]
          cases t with
          | nil => simp [List.dropWhile_nil] at h0
          | cons b bs => rw [List.getLast?_cons_cons]
    · rw [List.dropWhile_cons, if_neg ha]
      exact Or.inr rfl

lemma trimChars_idem (l : List Char) : trimChars (trimChars l) = trimChars l := by
  have h1 : (trimChars l).dropWhile Char.isWhitespace = trimChars l := by
    apply dropWhile_eq_self_of_head
    intro a t h
    unfold trimChars at h
    have hhead :
        ((l.dropWhile Char.isWhitespace).reverse.dropWhile Char.isWhitespace).getLast? =
          some a := by
      rw [← List.head?_reverse, h]
      rfl
    rcases getLast?_dropWhile (l.dropWhile Char.isWhitespace).reverse with h2 | h2
    · rw [h2] at h
      cases h
    · rw [h2, List.getLast?_reverse] at hhead
      cases hXc : l.dropWhile Char.isWhitespace with
      | nil => rw [hXc] at hhead; cases hhead
      | cons c cs =>
        rw [hXc] at hhead
        simp only [List.head?_cons, Option.some_inj] at hhead
        rw [← hhead]
        exact dropWhile_head_false l c cs hXc
  conv_lhs => rw [trimChars]
  rw [h1, trimChars, List.reverse_reverse, dropWhile_dropWhile]

lemma jsTrim_idem (s : String) : jsTrim (jsTrim s) = jsTrim s := by
  show String.mk (trimChars (String.mk (trimChars s.toList)).toList) =
    String.mk (trimChars s.toList)
  have h : (String.mk (trimChars s.toList)).toList = trimChars s.toList := rfl
  rw [h, trimChars_idem]

/-- Claim C1: the Visibility Filter: a resource whose tags intersect the
deny-list is never visible; otherwise an empty allow-list means visible;
otherwise visibility is intersection with the allow-list.  An empty resource
tag set is visible iff the allow-list is empty, and the three concrete vectors
of §8 hold. -/
theorem isVisible_spec (rt vt ht : List String) :
    (intersects rt ht = true → isVisible rt vt ht = false) ∧
    (intersects rt ht = false → vt = [] → isVisible rt vt ht = true) ∧
    (intersects rt ht = false → vt ≠ [] →
      (isVisible rt vt ht = true ↔ intersects rt vt = true)) ∧
    (isVisible [] vt ht = true ↔ vt = []) ∧
    isVisible ["prod", "internal"] ["prod"] ["internal"] = false ∧
    isVisible ["prod"] [] [] = true ∧
    isVisible [] ["prod"] [] = false := by
  refine ⟨?_, ?_, ?_, ?_, by decide, by decide, by decide⟩
  · intro h
    simp [isVisible, h]
  · intro h hv
    subst hv
    simp [isVisible, h]
  · intro h hv
    cases vt with
    | nil => exact absurd rfl hv
    | cons a t => simp [isVisible, h]
  · cases vt with
    | nil => simp [isVisible, intersects]
    | cons a t => simp [isVisible, intersects]

/-- Witness for C1 at the first §8 vector: the deny-list intersection makes the
resource invisible. -/
theorem isVisible_spec_wit :
    isVisible ["prod", "internal"] ["prod"] ["internal"] = false :=
  (isVisible_spec ["prod", "internal"] ["prod"] ["internal"]).1 (by decide)

/-- Claim C10: the tag list sent to the API is the comma-split of the input
with each fragment trimmed and empty fragments discarded; every submitted tag
is non-empty and already trimmed, and a blank or whitespace-only input yields
no list at all. -/
theorem tagsToArray_spec :
    tagsToArray none = none ∧
    (∀ s : String, jsTrim s = "" → tagsToArray (some s) = none) ∧
    (∀ s : String, jsTrim s ≠ "" →
      tagsToArray (some s) =
        some (((s.splitOn ",").map jsTrim).filter (fun t => 0 < t.length))) ∧
    (∀ (s : String) (l : List String), tagsToArray (some s) = some l →
      ∀ t ∈ l, 0 < t.length ∧ jsTrim t = t) := by
  refine ⟨rfl, ?_, ?_, ?_⟩
  · intro s h
    simp [tagsToArray, h]
  · intro s h
    simp [tagsToArray, h]
  · intro s l hl t ht
    simp only [tagsToArray] at hl
    split at hl
    · cases hl
    · injection hl with hl
      subst hl
      rw [List.mem_filter] at ht
      obtain ⟨hmem, hlen⟩ := ht
      rw [List.mem_map] at hmem
      obtain ⟨frag, _, hfrageq⟩ := hmem
      refine ⟨by simpa using hlen, ?_⟩
      rw [← hfrageq, jsTrim_idem]

/-- Witness for C10: a concrete non-blank input is split, trimmed and filtered. -/
theorem tagsToArray_spec_wit :
    tagsToArray (some "a, b") =
      some ((("a, b".splitOn ",").map jsTrim).filter (fun t => 0 < t.length)) :=
  tagsToArray_spec.2.2.1 "a, b" (by decide)

/-- Claim C3: every acting role not granted the manage-users capability —
each role other than admin and every unknown/corrupt role string — is denied:
the capability holds exactly for the parsed `admin` role, unknown roles are
never allowed, and all four mutating operations fail with `Forbidden` leaving
the directory unchanged. -/
theorem mutations_forbidden :
    (∀ s : String, can s Operation.manageUsers = true ↔ parseRole s = some Role.admin) ∧
    (∀ (s : String) (op : Operation), parseRole s = none → can s op = false) ∧
    (∀ (d : Directory) (a : Nat × String) (un rs : String) (dn sec : Option String)
        (vt ht : List String) (uid : Nat) (dn2 : Option String) (r? : Option Role)
        (vt2 ht2 : List String),
      can a.2 Operation.manageUsers = false →
      d.create a un rs dn sec vt ht = (d, Except.error DirError.Forbidden) ∧
      d.update a uid dn2 r? vt2 ht2 = (d, Except.error DirError.Forbidden) ∧
      d.delete a uid = (d, Except.error DirError.Forbidden) ∧
      d.resetCredential a uid = (d, Except.error DirError.Forbidden)) := by
  refine ⟨?_, ?_, ?_⟩
  · intro s
    unfold can
    cases h : parseRole s with
    | none => simp
    | some r => cases r <;> simp [roleCan]
  · intro s op h
    unfold can
    rw [h]
  · intro d a un rs dn sec vt ht uid dn2 r? vt2 ht2 h
    exact ⟨by simp [Directory.create, createE, h],
           by simp [Directory.update, updateE, h],
           by simp [Directory.delete, deleteE, h],
           by simp [Directory.resetCredential, resetE, h]⟩

/-- Witness for C3: a standard-role actor is denied on all four mutations. -/
theorem mutations_forbidden_wit :
    d0.create (5, "user") "dave" "user" none none [] [] =
      (d0, Except.error DirError.Forbidden) ∧
    d0.update (5, "user") 0 none none [] [] = (d0, Except.error DirError.Forbidden) ∧
    d0.delete (5, "user") 0 = (d0, Except.error DirError.Forbidden) ∧
    d0.resetCredential (5, "user") 0 = (d0, Except.error DirError.Forbidden) :=
  mutations_forbidden.2.2 d0 (5, "user") "dave" "user" none none [] [] 0 none none [] []
    (by decide)

/-- Counterexample to C4 as stated: a `readonly` actor deleting their own id is
rejected by the authorization check that §4.4 places before everything else, so
the error is `Forbidden`, not `SelfDeleteForbidden`. -/
theorem selfDelete_cex :
    (d0.delete (1, "readonly") 1).2 = Except.error DirError.Forbidden ∧
    DirError.Forbidden ≠ DirError.SelfDeleteForbidden :=
  ⟨rfl, by decide⟩

/-- Claim C4 (amended): for every directory state and every acting user whose
role is authorized to manage users, delete of the acting user's own id fails
with `SelfDeleteForbidden` and the directory is unchanged. -/
theorem selfDelete_forbidden (d : Directory) (a : Nat × String)
    (h : can a.2 Operation.manageUsers = true) :
    d.delete a a.1 = (d, Except.error DirError.SelfDeleteForbidden) := by
  simp [Directory.delete, deleteE, h]

/-- Witness for C4 (amended): the admin actor cannot delete their own account. -/
theorem selfDelete_forbidden_wit :
    d0.delete (0, "admin") 0 = (d0, Except.error DirError.SelfDeleteForbidden) :=
  selfDelete_forbidden d0 (0, "admin") (by decide)

lemma createE_ok (d : Directory) (a : Nat × String) (un rs : String)
    (dn sec : Option String) (vt ht : List String) (d2 : Directory) (u : User)
    (p : Option String)
    (h : createE d a un rs dn sec vt ht = Except.ok (d2, u, p)) :
    ∃ (role : Role) (hsh : CredHash) (mc : Bool),
      parseRole rs = some role ∧
      issueInitial sec d.nonce = Except.ok (hsh, mc, p) ∧
      validUsername un = true ∧
      d.users.any (fun v => decide (v.username = un)) = false ∧
      u = { id := d.nextId, username := un, displayName := dn, role := role,
            credentialHash := hsh, mustChangeCredential := mc,
            visibleTags := vt, hiddenTags := ht } ∧
      d2 = { users := d.users ++ [u], nextId := d.nextId + 1, nonce := d.nonce + 1 } := by
  simp only [createE] at h
  split at h
  · split at h
    · split at h
      · cases h
      · split at h
        · cases h
        · split at h
          · cases h
          · rename_i hcan hval hdup xr role hrole xi hsh mc plain hiss
            simp only [Except.ok.injEq, Prod.mk.injEq] at h
            obtain ⟨hd2, hu, hp⟩ := h
            subst hp
            subst hu
            exact ⟨role, hsh, mc, hrole, hiss, hval,
                   eq_false_of_ne_true hdup, rfl, hd2.symm⟩
    · cases h
  · cases h

/-- Claim C5: `issueInitial` hashes a present secret of length 8..100 with
`mustChange = false` and no plaintext; generates a fresh secret with
`mustChange = true` and the plaintext exactly once when absent; fails with
`InvalidCredential` for out-of-bounds lengths; and after a successful create
the stored `mustChangeCredential` is set iff no secret was supplied. -/
theorem issueInitial_spec :
    (∀ (s : String) (n : Nat), 8 ≤ s.length → s.length ≤ 100 →
      issueInitial (some s) n = Except.ok (hashSecret s, false, none)) ∧
    (∀ n : Nat, issueInitial none n =
      Except.ok (hashSecret (genSecret n), true, some (genSecret n))) ∧
    (∀ (s : String) (n : Nat), s.length < 8 ∨ 100 < s.length →
      issueInitial (some s) n = Except.error DirError.InvalidCredential) ∧
    (∀ (d d2 : Directory) (a : Nat × String) (un rs : String)
        (dn sec : Option String) (vt ht : List String) (u : User) (p : Option String),
      d.create a un rs dn sec vt ht = (d2, Except.ok (u, p)) →
      u.mustChangeCredential = sec.isNone) := by
  refine ⟨?_, ?_, ?_, ?_⟩
  · intro s n h1 h2
    simp [issueInitial, h1, h2]
  · intro n
    rfl
  · intro s n h
    have hno : ¬ (8 ≤ s.length ∧ s.length ≤ 100) := by omega
    simp [issueInitial, hno]
  · intro d d2 a un rs dn sec vt ht u p h
    rw [Directory.create] at h
    cases hE : createE d a un rs dn sec vt ht with
    | error e =>
      rw [hE] at h
      simp at h
    | ok x =>
      obtain ⟨d3, u0, p0⟩ := x
      rw [hE] at h
      simp only [Prod.mk.injEq, Except.ok.injEq] at h
      obtain ⟨hd, hu, hp⟩ := h
      subst hd hu hp
      obtain ⟨role, hsh, mc, _, hiss, _, _, hu0, _⟩ :=
        createE_ok d a un rs dn sec vt ht d3 u0 p0 hE
      subst hu0
      cases sec with
      | none =>
        simp only [issueInitial] at hiss
        simp only [Except.ok.injEq, Prod.mk.injEq] at hiss
        simp [hiss.2.1]
      | some s =>
        simp only [issueInitial] at hiss
        split at hiss
        · simp only [Except.ok.injEq, Prod.mk.injEq] at hiss
          simp [hiss.2.1]
        · cases hiss

/-- Witness for C5: a valid 9-character secret is hashed, with no forced
rotation and no plaintext exposure. -/
theorem issueInitial_spec_wit :
    issueInitial (some "password1") 0 = Except.ok (hashSecret "password1", false, none) :=
  issueInitial_spec.1 "password1" 0 (by decide) (by decide)

/-- Claim C7: create rejects short, long and ill-charactered usernames with
`InvalidUsername`, rejects usernames already present with `DuplicateUsername`,
and successful creates preserve directory-wide username uniqueness. -/
theorem create_username_rules :
    (∀ un : String,
      (un.length < 3 ∨ 50 < un.length ∨ ∃ c ∈ un.toList, validUsernameChar c = false) →
      ∀ (d : Directory) (a : Nat × String) (rs : String) (dn sec : Option String)
        (vt ht : List String),
      can a.2 Operation.manageUsers = true →
      d.create a un rs dn sec vt ht = (d, Except.error DirError.InvalidUsername)) ∧
    (∀ (d : Directory) (a : Nat × String) (un rs : String) (dn sec : Option String)
        (vt ht : List String),
      can a.2 Operation.manageUsers = true →
      validUsername un = true →
      (∃ v ∈ d.users, v.username = un) →
      d.create a un rs dn sec vt ht = (d, Except.error DirError.DuplicateUsername)) ∧
    (∀ (d d2 : Directory) (a : Nat × String) (un rs : String) (dn sec : Option String)
        (vt ht : List String) (u : User) (p : Option String),
      (d.users.map User.username).Nodup →
      d.create a un rs dn sec vt ht = (d2, Except.ok (u, p)) →
      (d2.users.map User.username).Nodup) := by
  refine ⟨?_, ?_, ?_⟩
  · intro un hbad d a rs dn sec vt ht hcan
    have hval : validUsername un = false := by
      cases hv : validUsername un
      · rfl
      · exfalso
        simp only [validUsername, Bool.and_eq_true, decide_eq_true_eq,
          List.all_eq_true] at hv
        obtain ⟨⟨h3, h50⟩, hall⟩ := hv
        rcases hbad with h | h | ⟨c, hc, hcval⟩
        · omega
        · omega
        · rw [hall c hc] at hcval
          cases hcval
    simp [Directory.create, createE, hcan, hval]
  · intro d a un rs dn sec vt ht hcan hval hdup
    have hany : (d.users.any fun v => decide (v.username = un)) = true := by
      rw [List.any_eq_true]
      obtain ⟨v, hv, he⟩ := hdup
      exact ⟨v, hv, decide_eq_true he⟩
    simp [Directory.create, createE, hcan, hval, hany]
  · intro d d2 a un rs dn sec vt ht u p hnd h
    rw [Directory.create] at h
    cases hE : createE d a un rs dn sec vt ht with
    | error e =>
      rw [hE] at h
      simp at h
    | ok x =>
      obtain ⟨d3, u0, p0⟩ := x
      rw [hE] at h
      simp only [Prod.mk.injEq, Except.ok.injEq] at h
      obtain ⟨hd, hu, hp⟩ := h
      subst hd
      obtain ⟨role, hsh, mc, _, _, _, hnodup, hu0, hd3⟩ :=
        createE_ok d a un rs dn sec vt ht d3 u0 p0 hE
      subst hd3
      subst hu0
      simp only [List.map_append, List.map_cons, List.map_nil]
      rw [List.nodup_append]
      refine ⟨hnd, List.nodup_singleton _, ?_⟩
      intro x hx hx2
      simp only [List.mem_singleton] at hx2
      rw [List.mem_map] at hx
      obtain ⟨v, hv, hvx⟩ := hx
      have hc : (d.users.any fun w => decide (w.username = un)) = true := by
        rw [List.any_eq_true]
        exact ⟨v, hv, decide_eq_true (by rw [hvx, hx2])⟩
      rw [hnodup] at hc
      cases hc

/-- Witness for C7: a two-character username is rejected. -/
theorem create_username_rules_wit :
    d0.create (0, "admin") "ab" "user" none none [] [] =
      (d0, Except.error DirError.InvalidUsername) :=
  create_username_rules.1 "ab" (Or.inl (by decide)) d0 (0, "admin") "user" none none [] []
    (by decide)

lemma updateE_ok (d : Directory) (a : Nat × String) (uid : Nat)
    (dn : Option String) (r? : Option Role) (vt ht : List String)
    (d2 : Directory) (u2 : User)
    (h : updateE d a uid dn r? vt ht = Except.ok (d2, u2)) :
    ∃ target,
      d.users.find? (fun v => decide (v.id = uid)) = some target ∧
      ¬(target.role = Role.admin ∧ r?.getD target.role ≠ Role.admin ∧
        countAdmins d = 1) ∧
      u2 = { target with
             displayName := dn, role := r?.getD target.role,
             visibleTags := vt, hiddenTags := ht } ∧
      d2 = { d with users := d.users.map (fun v => if v.id = uid then u2 else v) } := by
  simp only [updateE] at h
  split at h
  · split at h
    · cases h
    · split at h
      · cases h
      · rename_i hcan xs target hfind hguard
        simp only [Except.ok.injEq, Prod.mk.injEq] at h
        obtain ⟨hd2, hu⟩ := h
        subst hu
        exact ⟨target, hfind, hguard, rfl, hd2.symm⟩
  · cases h

lemma deleteE_ok (d : Directory) (a : Nat × String) (uid : Nat) (d2 : Directory)
    (h : deleteE d a uid = Except.ok d2) :
    ∃ target,
      ¬ uid = a.1 ∧
      d.users.find? (fun v => decide (v.id = uid)) = some target ∧
      ¬(target.role = Role.admin ∧ countAdmins d = 1) ∧
      d2 = { d with users := d.users.filter (fun v => decide (v.id ≠ uid)) } := by
  simp only [deleteE] at h
  split at h
  · split at h
    · cases h
    · split at h
      · cases h
      · split at h
        · cases h
        · rename_i hcan hself xs target hfind hguard
          simp only [Except.ok.injEq] at h
          exact ⟨target, hself, hfind, hguard, h.symm⟩
  · cases h

lemma resetE_ok (d : Directory) (a : Nat × String) (uid : Nat) (d2 : Directory)
    (p : String) (h : resetE d a uid = Except.ok (d2, p)) :
    ∃ target,
      d.users.find? (fun v => decide (v.id = uid)) = some target ∧
      p = genSecret d.nonce ∧
      d2 = { d with
             users := d.users.map (fun v => if v.id = uid then
               { target with
                 credentialHash := hashSecret (genSecret d.nonce),
                 mustChangeCredential := true } else v),
             nonce := d.nonce + 1 } := by
  simp only [resetE] at h
  split at h
  · split at h
    · cases h
    · rename_i hcan xs target hfind
      simp only [Except.ok.injEq, Prod.mk.injEq] at h
      obtain ⟨hd2, hp⟩ := h
      exact ⟨target, hfind, hp.symm, hd2.symm⟩
  · cases h

/-- Claim C9: a successful update modifies at most display name, role and the
two tag lists of the target — id, username, credential hash and rotation flag
are untouched — and the supplied tag lists replace the stored ones outright
(an empty list clears the filtering), all other users being rewritten
identically. -/
theorem update_frame (d d2 : Directory) (a : Nat × String) (uid : Nat)
    (dn : Option String) (r? : Option Role) (vt ht : List String) (u2 : User)
    (h : d.update a uid dn r? vt ht = (d2, Except.ok u2)) :
    ∃ target,
      d.users.find? (fun v => decide (v.id = uid)) = some target ∧
      u2.id = target.id ∧
      u2.username = target.username ∧
      u2.credentialHash = target.credentialHash ∧
      u2.mustChangeCredential = target.mustChangeCredential ∧
      u2.displayName = dn ∧
      u2.role = r?.getD target.role ∧
      u2.visibleTags = vt ∧
      u2.hiddenTags = ht ∧
      d2.users = d.users.map (fun v => if v.id = uid then u2 else v) ∧
      d2.nextId = d.nextId ∧ d2.nonce = d.nonce := by
  rw [Directory.update] at h
  cases hE : updateE d a uid dn r? vt ht with
  | error e =>
    rw [hE] at h
    simp at h
  | ok x =>
    obtain ⟨d3, u3⟩ := x
    rw [hE] at h
    simp only [Prod.mk.injEq, Except.ok.injEq] at h
    obtain ⟨hd, hu⟩ := h
    subst hd
    subst hu
    obtain ⟨target, hfind, hguard, hu2, hd2⟩ := updateE_ok d a uid dn r? vt ht d3 u3 hE
    subst hu2
    subst hd2
    exact ⟨target, hfind, rfl, rfl, rfl, rfl, rfl, rfl, rfl, rfl, rfl, rfl, rfl⟩

/-- Witness for C9: editing `bob` in the two-user directory replaces exactly
the editable fields. -/
theorem update_frame_wit :
    ∃ target,
      d0.users.find? (fun v => decide (v.id = 1)) = some target ∧
      bobEdited.id = target.id ∧
      bobEdited.username = target.username ∧
      bobEdited.credentialHash = target.credentialHash ∧
      bobEdited.mustChangeCredential = target.mustChangeCredential ∧
      bobEdited.displayName = some "Bobby" ∧
      bobEdited.role = (some Role.readonly).getD target.role ∧
      bobEdited.visibleTags = [] ∧
      bobEdited.hiddenTags = ["secret"] ∧
      d0Edited.users = d0.users.map (fun v => if v.id = 1 then bobEdited else v) ∧
      d0Edited.nextId = d0.nextId ∧ d0Edited.nonce = d0.nonce :=
  update_frame d0 d0Edited (0, "admin") 1 (some "Bobby") (some Role.readonly) []
    ["secret"] bobEdited (by rfl)

lemma create_frame (d : Directory) (a : Nat × String) (un rs : String)
    (dn sec : Option String) (vt ht : List String) (e : DirError)
    (h : (d.create a un rs dn sec vt ht).2 = Except.error e) :
    (d.create a un rs dn sec vt ht).1 = d := by
  rw [Directory.create] at h ⊢
  cases hE : createE d a un rs dn sec vt ht with
  | error e2 => rfl
  | ok x =>
    obtain ⟨d3, u0, p0⟩ := x
    rw [hE] at h
    simp at h

lemma update_frame_err (d : Directory) (a : Nat × String) (uid : Nat)
    (dn : Option String) (r? : Option Role) (vt ht : List String) (e : DirError)
    (h : (d.update a uid dn r? vt ht).2 = Except.error e) :
    (d.update a uid dn r? vt ht).1 = d := by
  rw [Directory.update] at h ⊢
  cases hE : updateE d a uid dn r? vt ht with
  | error e2 => rfl
  | ok x =>
    obtain ⟨d3, u3⟩ := x
    rw [hE] at h
    simp at h

lemma delete_frame (d : Directory) (a : Nat × String) (uid : Nat) (e : DirError)
    (h : (d.delete a uid).2 = Except.error e) :
    (d.delete a uid).1 = d := by
  rw [Directory.delete] at h ⊢
  cases hE : deleteE d a uid with
  | error e2 => rfl
  | ok d3 =>
    rw [hE] at h
    simp at h

lemma reset_frame (d : Directory) (a : Nat × String) (uid : Nat) (e : DirError)
    (h : (d.resetCredential a uid).2 = Except.error e) :
    (d.resetCredential a uid).1 = d := by
  rw [Directory.resetCredential] at h ⊢
  cases hE : resetE d a uid with
  | error e2 => rfl
  | ok x =>
    obtain ⟨d3, p⟩ := x
    rw [hE] at h
    simp at h

/-- Claim C8: every Directory operation is atomic with respect to failure —
whenever it returns any error kind, the directory state after the call equals
the state before the call. -/
theorem atomic_failure (d : Directory) (act : DirAction) (e : DirError)
    (h : (applyActionFull d act).2 = Except.error e) :
    (applyActionFull d act).1 = d := by
  cases act with
  | create a un rs dn sec vt ht =>
    simp only [applyActionFull] at h ⊢
    cases hr : (d.create a un rs dn sec vt ht).2 with
    | error e2 => exact create_frame d a un rs dn sec vt ht e2 hr
    | ok y =>
      rw [hr] at h
      simp [Except.map] at h
  | update a uid dn r? vt ht =>
    simp only [applyActionFull] at h ⊢
    cases hr : (d.update a uid dn r? vt ht).2 with
    | error e2 => exact update_frame_err d a uid dn r? vt ht e2 hr
    | ok y =>
      rw [hr] at h
      simp [Except.map] at h
  | delete a uid =>
    simp only [applyActionFull] at h ⊢
    cases hr : (d.delete a uid).2 with
    | error e2 => exact delete_frame d a uid e2 hr
    | ok y =>
      rw [hr] at h
      simp [Except.map] at h
  | reset a uid =>
    simp only [applyActionFull] at h ⊢
    cases hr : (d.resetCredential a uid).2 with
    | error e2 => exact reset_frame d a uid e2 hr
    | ok y =>
      rw [hr] at h
      simp [Except.map] at h

/-- Witness for C8: the failing self-delete leaves the directory unchanged. -/
theorem atomic_failure_wit :
    (applyActionFull d0 (DirAction.delete (0, "admin") 0)).1 = d0 :=
  atomic_failure d0 (DirAction.delete (0, "admin") 0) DirError.SelfDeleteForbidden
    (by rfl)

lemma find?_decide_mem {l : List User} {uid : Nat} {v : User}
    (h : l.find? (fun u => decide (u.id = uid)) = some v) : v ∈ l ∧ v.id = uid := by
  have h1 := List.find?_some h
  have h2 := List.mem_of_find?_eq_some h
  exact ⟨h2, of_decide_eq_true h1⟩

lemma find?_map_idpres (l : List User) (uid : Nat) (f : User → User)
    (hf : ∀ u, (f u).id = u.id) :
    (l.map f).find? (fun u => decide (u.id = uid)) =
      (l.find? (fun u => decide (u.id = uid))).map f := by
  induction l with
  | nil => rfl
  | cons a t ih =>
    by_cases ha : a.id = uid
    · rw [List.map_cons]
      rw [List.find?_cons_of_pos (t.map f)
        (decide_eq_true (show (f a).id = uid by rw [hf a]; exact ha))]
      rw [List.find?_cons_of_pos t (decide_eq_true ha)]
      rfl
    · rw [List.map_cons]
      rw [List.find?_cons_of_neg (t.map f)
        (show ¬ decide ((f a).id = uid) = true by
          simp only [hf a, decide_eq_true_eq]
          exact ha)]
      rw [List.find?_cons_of_neg t (by simpa using ha), ih]

lemma find?_eq_some_of_nodup (l : List User) (uid : Nat) (a : User)
    (hnd : (l.map User.id).Nodup) (ha : a ∈ l) (hid : a.id = uid) :
    l.find? (fun u => decide (u.id = uid)) = some a := by
  induction l with
  | nil => cases ha
  | cons b t ih =>
    rw [List.map_cons, List.nodup_cons] at hnd
    obtain ⟨hbnotin, hndt⟩ := hnd
    rcases List.mem_cons.mp ha with hab | hat
    · subst hab
      exact List.find?_cons_of_pos _ (decide_eq_true hid)
    · have hbne : ¬ (b.id = uid) := by
        intro hb
        apply hbnotin
        rw [hb, ← hid]
        exact List.mem_map_of_mem User.id hat
      rw [List.find?_cons_of_neg _ (by simpa using hbne)]
      exact ih hndt hat

lemma exists_mem_ne {α : Type} (l : List α) (a : α) (hnd : l.Nodup) (_ha : a ∈ l)
    (hlen : 2 ≤ l.length) : ∃ b ∈ l, b ≠ a := by
  by_contra hcon
  push_neg at hcon
  have hrep : l = List.replicate l.length a := List.eq_replicate_of_mem hcon
  rw [hrep, List.nodup_replicate] at hnd
  omega

lemma second_admin (d : Directory) (a : User)
    (hnd : (d.users.map User.id).Nodup) (ha : a ∈ d.users)
    (har : a.role = Role.admin) (hc : countAdmins d ≠ 1) :
    ∃ b ∈ d.users, b.role = Role.admin ∧ b.id ≠ a.id := by
  have hafil : a ∈ d.users.filter (fun u => decide (u.role = Role.admin)) := by
    rw [List.mem_filter]
    exact ⟨ha, decide_eq_true har⟩
  have h2 : 2 ≤ (d.users.filter (fun u => decide (u.role = Role.admin))).length := by
    have hpos := List.length_pos_of_mem hafil
    unfold countAdmins at hc
    omega
  have hndfil :
      ((d.users.filter (fun u => decide (u.role = Role.admin))).map User.id).Nodup :=
    List.Nodup.sublist (List.Sublist.map User.id (List.filter_sublist d.users)) hnd
  have haid : a.id ∈ (d.users.filter (fun u => decide (u.role = Role.admin))).map User.id :=
    List.mem_map_of_mem User.id hafil
  have hlen2 :
      2 ≤ ((d.users.filter (fun u => decide (u.role = Role.admin))).map User.id).length := by
    rw [List.length_map]
    exact h2
  obtain ⟨i, hi, hine⟩ := exists_mem_ne _ a.id hndfil haid hlen2
  rw [List.mem_map] at hi
  obtain ⟨b, hb, hbi⟩ := hi
  rw [List.mem_filter] at hb
  refine ⟨b, hb.1, of_decide_eq_true hb.2, ?_⟩
  rw [hbi]
  exact hine

lemma map_user_id_of_idpres (l : List User) (f : User → User)
    (hf : ∀ u, (f u).id = u.id) : (l.map f).map User.id = l.map User.id := by
  induction l with
  | nil => rfl
  | cons a t ih => simp [hf, ih]

lemma reset_ok_eq (d : Directory) (a : Nat × String) (uid : Nat) (target : User)
    (hcan : can a.2 Operation.manageUsers = true)
    (hF : d.users.find? (fun v => decide (v.id = uid)) = some target) :
    d.resetCredential a uid =
      ({ d with
         users := d.users.map (fun v => if v.id = uid then
           { target with
             credentialHash := hashSecret (genSecret d.nonce),
             mustChangeCredential := true } else v),
         nonce := d.nonce + 1 },
       Except.ok (genSecret d.nonce)) := by
  simp [Directory.resetCredential, resetE, hcan, hF]

lemma genSecret_inj (m n : Nat) (h : genSecret m = genSecret n) : m = n := by
  have hlen : (genSecret m).length = (genSecret n).length := by rw [h]
  have hm : (genSecret m).length = 16 + m := by
    simp [genSecret, String.length]
  have hn : (genSecret n).length = 16 + n := by
    simp [genSecret, String.length]
  omega

lemma reset_ok_flag (d : Directory) (a : Nat × String) (uid : Nat) (target : User)
    (hcan : can a.2 Operation.manageUsers = true)
    (hF : d.users.find? (fun v => decide (v.id = uid)) = some target) :
    ∃ dd : Directory,
      d.resetCredential a uid = (dd, Except.ok (genSecret d.nonce)) ∧
      dd.users.find? (fun v => decide (v.id = uid)) =
        some { target with
               credentialHash := hashSecret (genSecret d.nonce),
               mustChangeCredential := true } ∧
      dd.nonce = d.nonce + 1 := by
  have htid : target.id = uid := (find?_decide_mem hF).2
  refine ⟨_, reset_ok_eq d a uid target hcan hF, ?_, rfl⟩
  have hf1 : ∀ u : User,
      ((fun v => if v.id = uid then
        { target with
          credentialHash := hashSecret (genSecret d.nonce),
          mustChangeCredential := true } else v) u).id = u.id := by
    intro u
    by_cases h : u.id = uid
    · simp only [if_pos h]
      show target.id = u.id
      rw [htid, h]
    · simp only [if_neg h]
  rw [find?_map_idpres _ uid _ hf1, hF]
  show some (if target.id = uid then
      { target with
        credentialHash := hashSecret (genSecret d.nonce),
        mustChangeCredential := true } else target) =
    some { target with
           credentialHash := hashSecret (genSecret d.nonce),
           mustChangeCredential := true }
  rw [if_pos htid]

lemma reset_twice (d : Directory) (a : Nat × String) (uid : Nat) (target : User)
    (hcan : can a.2 Operation.manageUsers = true)
    (hF : d.users.find? (fun v => decide (v.id = uid)) = some target) :
    ∃ (d1 d2 : Directory) (p1 p2 : String),
      d.resetCredential a uid = (d1, Except.ok p1) ∧
      d1.resetCredential a uid = (d2, Except.ok p2) ∧
      p1 ≠ p2 ∧
      hashSecret p1 ≠ hashSecret p2 ∧
      (∀ u1, d1.users.find? (fun v => decide (v.id = uid)) = some u1 →
        u1.credentialHash = hashSecret p1 ∧ u1.mustChangeCredential = true) ∧
      (∀ u2, d2.users.find? (fun v => decide (v.id = uid)) = some u2 →
        u2.credentialHash = hashSecret p2 ∧ u2.mustChangeCredential = true) := by
  obtain ⟨dd1, h1, hfind1, hn1⟩ := reset_ok_flag d a uid target hcan hF
  obtain ⟨dd2, h2, hfind2, hn2⟩ := reset_ok_flag dd1 a uid _ hcan hfind1
  have hpne : genSecret d.nonce ≠ genSecret dd1.nonce := by
    intro hh
    have := genSecret_inj _ _ hh
    omega
  refine ⟨dd1, dd2, genSecret d.nonce, genSecret dd1.nonce, h1, h2, hpne, ?_, ?_, ?_⟩
  · intro hh
    apply hpne
    have hv : CredHash.val (hashSecret (genSecret d.nonce)) =
        CredHash.val (hashSecret (genSecret dd1.nonce)) := by rw [hh]
    exact hv
  · intro u1 hu1
    rw [hfind1] at hu1
    injection hu1 with hu1
    rw [← hu1]
    exact ⟨rfl, rfl⟩
  · intro u2 hu2
    rw [hfind2] at hu2
    injection hu2 with hu2
    rw [← hu2]
    exact ⟨rfl, rfl⟩

/-- Claim C6: `resetCredential` fails with `NotFound` exactly when the id is
unknown; for every present user it succeeds, persists a freshly generated
hash with `mustChangeCredential = true` and returns the one-time plaintext;
and two sequential resets on the same user return two different plaintexts,
each invalidating the previous hash, with the rotation flag set after both. -/
theorem resetCredential_spec :
    (∀ (d : Directory) (a : Nat × String) (uid : Nat),
      can a.2 Operation.manageUsers = true →
      ((d.resetCredential a uid).2 = Except.error DirError.NotFound ↔
        d.users.find? (fun v => decide (v.id = uid)) = none)) ∧
    (∀ (d : Directory) (a : Nat × String) (uid : Nat) (target : User),
      can a.2 Operation.manageUsers = true →
      d.users.find? (fun v => decide (v.id = uid)) = some target →
      d.resetCredential a uid =
        ({ d with
           users := d.users.map (fun v => if v.id = uid then
             { target with
               credentialHash := hashSecret (genSecret d.nonce),
               mustChangeCredential := true } else v),
           nonce := d.nonce + 1 },
         Except.ok (genSecret d.nonce))) ∧
    (∀ (d : Directory) (a : Nat × String) (uid : Nat) (target : User),
      can a.2 Operation.manageUsers = true →
      d.users.find? (fun v => decide (v.id = uid)) = some target →
      ∃ (d1 d2 : Directory) (p1 p2 : String),
        d.resetCredential a uid = (d1, Except.ok p1) ∧
        d1.resetCredential a uid = (d2, Except.ok p2) ∧
        p1 ≠ p2 ∧
        hashSecret p1 ≠ hashSecret p2 ∧
        (∀ u1, d1.users.find? (fun v => decide (v.id = uid)) = some u1 →
          u1.credentialHash = hashSecret p1 ∧ u1.mustChangeCredential = true) ∧
        (∀ u2, d2.users.find? (fun v => decide (v.id = uid)) = some u2 →
          u2.credentialHash = hashSecret p2 ∧ u2.mustChangeCredential = true)) := by
  refine ⟨?_, ?_, ?_⟩
  · intro d a uid hcan
    cases hF : d.users.find? (fun v => decide (v.id = uid)) with
    | none => simp [Directory.resetCredential, resetE, hcan, hF]
    | some target => simp [Directory.resetCredential, resetE, hcan, hF]
  · intro d a uid target hcan hF
    exact reset_ok_eq d a uid target hcan hF
  · intro d a uid target hcan hF
    exact reset_twice d a uid target hcan hF

/-- Witness for C6: resetting an unknown id in the concrete directory is
`NotFound`, and exactly because the id is absent. -/
theorem resetCredential_spec_wit :
    (d0.resetCredential (0, "admin") 99).2 = Except.error DirError.NotFound ↔
      d0.users.find? (fun v => decide (v.id = 99)) = none :=
  resetCredential_spec.1 d0 (0, "admin") 99 (by decide)

lemma WF_create (d : Directory) (a : Nat × String) (un rs : String)
    (dn sec : Option String) (vt ht : List String) (h : WF d) :
    WF (d.create a un rs dn sec vt ht).1 := by
  rw [Directory.create]
  cases hE : createE d a un rs dn sec vt ht with
  | error e => exact h
  | ok x =>
    obtain ⟨d2, u, p⟩ := x
    show WF d2
    obtain ⟨role, hsh, mc, _, _, _, _, hu, hd2⟩ :=
      createE_ok d a un rs dn sec vt ht d2 u p hE
    obtain ⟨hbound, hnd, hadm⟩ := h
    have huid : u.id = d.nextId := by rw [hu]
    have h1 : ∀ v ∈ d.users ++ [u], v.id < d.nextId + 1 := by
      intro v hv
      rcases List.mem_append.mp hv with hv | hv
      · have := hbound v hv
        omega
      · rw [List.mem_singleton] at hv
        subst hv
        omega
    have h2 : ((d.users ++ [u]).map User.id).Nodup := by
      rw [List.map_append, List.nodup_append]
      refine ⟨hnd, List.nodup_singleton _, ?_⟩
      intro x hx hx2
      simp only [List.map_cons, List.map_nil, List.mem_singleton] at hx2
      rw [List.mem_map] at hx
      obtain ⟨v, hv, hvx⟩ := hx
      have hb := hbound v hv
      rw [hx2, huid] at hvx
      omega
    have h3 : ∃ w ∈ d.users ++ [u], w.role = Role.admin := by
      obtain ⟨w, hw, hwr⟩ := hadm
      exact ⟨w, List.mem_append_left _ hw, hwr⟩
    rw [hd2]
    exact ⟨h1, h2, h3⟩

lemma WF_update (d : Directory) (a : Nat × String) (uid : Nat)
    (dn : Option String) (r? : Option Role) (vt ht : List String) (h : WF d) :
    WF (d.update a uid dn r? vt ht).1 := by
  rw [Directory.update]
  cases hE : updateE d a uid dn r? vt ht with
  | error e => exact h
  | ok x =>
    obtain ⟨d2, u2⟩ := x
    show WF d2
    obtain ⟨target, hfind, hguard, hu2, hd2⟩ := updateE_ok d a uid dn r? vt ht d2 u2 hE
    obtain ⟨htmem, htid⟩ := find?_decide_mem hfind
    obtain ⟨hbound, hnd, hadm⟩ := h
    have hidp : ∀ v : User, ((fun w => if w.id = uid then u2 else w) v).id = v.id := by
      intro v
      by_cases hcase : v.id = uid
      · simp only [if_pos hcase]
        rw [hu2]
        show target.id = v.id
        rw [htid, hcase]
      · simp only [if_neg hcase]
    have h1 : ∀ v ∈ d.users.map (fun w => if w.id = uid then u2 else w),
        v.id < d.nextId := by
      intro v hv
      rw [List.mem_map] at hv
      obtain ⟨w, hw, hwv⟩ := hv
      rw [← hwv, hidp w]
      exact hbound w hw
    have h2 : ((d.users.map (fun w => if w.id = uid then u2 else w)).map User.id).Nodup := by
      rw [map_user_id_of_idpres _ _ hidp]
      exact hnd
    have h3 : ∃ v ∈ d.users.map (fun w => if w.id = uid then u2 else w),
        v.role = Role.admin := by
      obtain ⟨w, hw, hwr⟩ := hadm
      by_cases hcase : w.id = uid
      · have hfw := find?_eq_some_of_nodup d.users uid w hnd hw hcase
        rw [hfind] at hfw
        injection hfw with hfw
        by_cases hnew : r?.getD target.role = Role.admin
        · refine ⟨u2, List.mem_map.mpr ⟨w, hw, by simp only [if_pos hcase]⟩, ?_⟩
          rw [hu2]
          exact hnew
        · have htadm : target.role = Role.admin := by
            rw [hfw]
            exact hwr
          have hcount : countAdmins d ≠ 1 := by
            intro hc
            exact hguard ⟨htadm, hnew, hc⟩
          obtain ⟨b, hb, hbadm, hbne⟩ := second_admin d w hnd hw hwr hcount
          refine ⟨b, List.mem_map.mpr ⟨b, hb, by
            simp only [if_neg (show ¬ b.id = uid by rw [← hcase]; exact hbne)]⟩, hbadm⟩
      · exact ⟨w, List.mem_map.mpr ⟨w, hw, by simp only [if_neg hcase]⟩, hwr⟩
    rw [hd2]
    exact ⟨h1, h2, h3⟩

lemma WF_delete (d : Directory) (a : Nat × String) (uid : Nat) (h : WF d) :
    WF (d.delete a uid).1 := by
  rw [Directory.delete]
  cases hE : deleteE d a uid with
  | error e => exact h
  | ok d2 =>
    show WF d2
    obtain ⟨target, hself, hfind, hguard, hd2⟩ := deleteE_ok d a uid d2 hE
    obtain ⟨hbound, hnd, hadm⟩ := h
    have h1 : ∀ v ∈ d.users.filter (fun w => decide (w.id ≠ uid)), v.id < d.nextId := by
      intro v hv
      rw [List.mem_filter] at hv
      exact hbound v hv.1
    have h2 : ((d.users.filter (fun w => decide (w.id ≠ uid))).map User.id).Nodup :=
      List.Nodup.sublist (List.Sublist.map User.id (List.filter_sublist d.users)) hnd
    have h3 : ∃ v ∈ d.users.filter (fun w => decide (w.id ≠ uid)),
        v.role = Role.admin := by
      obtain ⟨w, hw, hwr⟩ := hadm
      by_cases hcase : w.id = uid
      · have hfw := find?_eq_some_of_nodup d.users uid w hnd hw hcase
        rw [hfind] at hfw
        injection hfw with hfw
        have hcount : countAdmins d ≠ 1 := by
          intro hc
          refine hguard ⟨?_, hc⟩
          rw [hfw]
          exact hwr
        obtain ⟨b, hb, hbadm, hbne⟩ := second_admin d w hnd hw hwr hcount
        refine ⟨b, ?_, hbadm⟩
        rw [List.mem_filter]
        refine ⟨hb, decide_eq_true ?_⟩
        rw [hcase] at hbne
        exact hbne
      · refine ⟨w, ?_, hwr⟩
        rw [List.mem_filter]
        exact ⟨hw, decide_eq_true hcase⟩
    rw [hd2]
    exact ⟨h1, h2, h3⟩

lemma WF_reset (d : Directory) (a : Nat × String) (uid : Nat) (h : WF d) :
    WF (d.resetCredential a uid).1 := by
  rw [Directory.resetCredential]
  cases hE : resetE d a uid with
  | error e => exact h
  | ok x =>
    obtain ⟨d2, p⟩ := x
    show WF d2
    obtain ⟨target, hfind, hp, hd2⟩ := resetE_ok d a uid d2 p hE
    obtain ⟨htmem, htid⟩ := find?_decide_mem hfind
    obtain ⟨hbound, hnd, hadm⟩ := h
    have hidp : ∀ v : User, ((fun w => if w.id = uid then
        { target with
          credentialHash := hashSecret (genSecret d.nonce),
          mustChangeCredential := true } else w) v).id = v.id := by
      intro v
      by_cases hcase : v.id = uid
      · simp only [if_pos hcase]
        show target.id = v.id
        rw [htid, hcase]
      · simp only [if_neg hcase]
    have h1 : ∀ v ∈ d.users.map (fun w => if w.id = uid then
        { target with
          credentialHash := hashSecret (genSecret d.nonce),
          mustChangeCredential := true } else w), v.id < d.nextId := by
      intro v hv
      rw [List.mem_map] at hv
      obtain ⟨w, hw, hwv⟩ := hv
      rw [← hwv, hidp w]
      exact hbound w hw
    have h2 : ((d.users.map (fun w => if w.id = uid then
        { target with
          credentialHash := hashSecret (genSecret d.nonce),
          mustChangeCredential := true } else w)).map User.id).Nodup := by
      rw [map_user_id_of_idpres _ _ hidp]
      exact hnd
    have h3 : ∃ v ∈ d.users.map (fun w => if w.id = uid then
        { target with
          credentialHash := hashSecret (genSecret d.nonce),
          mustChangeCredential := true } else w), v.role = Role.admin := by
      obtain ⟨w, hw, hwr⟩ := hadm
      by_cases hcase : w.id = uid
      · have hfw := find?_eq_some_of_nodup d.users uid w hnd hw hcase
        rw [hfind] at hfw
        injection hfw with hfw
        refine ⟨if w.id = uid then
            { target with
              credentialHash := hashSecret (genSecret d.nonce),
              mustChangeCredential := true } else w,
          List.mem_map.mpr ⟨w, hw, rfl⟩, ?_⟩
        rw [if_pos hcase]
        show target.role = Role.admin
        rw [hfw]
        exact hwr
      · exact ⟨w, List.mem_map.mpr ⟨w, hw, by simp only [if_neg hcase]⟩, hwr⟩
    rw [hd2]
    exact ⟨h1, h2, h3⟩

lemma WF_applyAction (d : Directory) (act : DirAction) (h : WF d) :
    WF (applyAction d act) := by
  cases act with
  | create a un rs dn sec vt ht => exact WF_create d a un rs dn sec vt ht h
  | update a uid dn r? vt ht => exact WF_update d a uid dn r? vt ht h
  | delete a uid => exact WF_delete d a uid h
  | reset a uid => exact WF_reset d a uid h

lemma WF_runActions (d : Directory) (acts : List DirAction) (h : WF d) :
    WF (runActions d acts) := by
  induction acts generalizing d with
  | nil => exact h
  | cons act rest ih => exact ih (applyAction d act) (WF_applyAction d act h)

/-- Claim C2: from any well-formed directory with at least one admin-role
user, every state reachable through create/update/delete/resetCredential
still contains at least one admin; deleting the last remaining admin fails
with `LastAdminViolation`; updating the last remaining admin's role away from
admin fails with `LastAdminViolation`; and a directory with two admins
permits demoting one of them. -/
theorem lastAdmin_invariant :
    (∀ (d : Directory) (acts : List DirAction), WF d → hasAdmin (runActions d acts)) ∧
    (∀ (d : Directory) (a : Nat × String) (uid : Nat) (target : User),
      can a.2 Operation.manageUsers = true → ¬ uid = a.1 →
      d.users.find? (fun v => decide (v.id = uid)) = some target →
      target.role = Role.admin → countAdmins d = 1 →
      d.delete a uid = (d, Except.error DirError.LastAdminViolation)) ∧
    (∀ (d : Directory) (a : Nat × String) (uid : Nat) (target : User)
        (dn : Option String) (r : Role) (vt ht : List String),
      can a.2 Operation.manageUsers = true →
      d.users.find? (fun v => decide (v.id = uid)) = some target →
      target.role = Role.admin → ¬ r = Role.admin → countAdmins d = 1 →
      d.update a uid dn (some r) vt ht =
        (d, Except.error DirError.LastAdminViolation)) ∧
    (∀ (d : Directory) (a : Nat × String) (uid : Nat) (target : User)
        (dn : Option String) (r : Role) (vt ht : List String),
      can a.2 Operation.manageUsers = true →
      d.users.find? (fun v => decide (v.id = uid)) = some target →
      countAdmins d = 2 →
      ∃ u2, (d.update a uid dn (some r) vt ht).2 = Except.ok u2) := by
  refine ⟨?_, ?_, ?_, ?_⟩
  · intro d acts h
    exact (WF_runActions d acts h).2.2
  · intro d a uid target hcan hself hfind htadm hcount
    simp [Directory.delete, deleteE, hcan, hself, hfind, htadm, hcount]
  · intro d a uid target dn r vt ht hcan hfind htadm hr hcount
    simp [Directory.update, updateE, hcan, hfind, htadm, hr, hcount]
  · intro d a uid target dn r vt ht hcan hfind hcount
    have hup : updateE d a uid dn (some r) vt ht =
        Except.ok
          ({ d with users := d.users.map (fun v => if v.id = uid then
             { target with
               displayName := dn, role := (some r).getD target.role,
               visibleTags := vt, hiddenTags := ht } else v) },
           { target with
             displayName := dn, role := (some r).getD target.role,
             visibleTags := vt, hiddenTags := ht }) := by
      simp [updateE, hcan, hfind, hcount]
    refine ⟨{ target with
              displayName := dn, role := (some r).getD target.role,
              visibleTags := vt, hiddenTags := ht }, ?_⟩
    rw [Directory.update, hup]

/-- Witness for C2: in the one-admin directory, deleting the sole admin by
another authorized actor is rejected with `LastAdminViolation`. -/
theorem lastAdmin_invariant_wit :
    d0.delete (1, "admin") 0 = (d0, Except.error DirError.LastAdminViolation) :=
  lastAdmin_invariant.2.1 d0 (1, "admin") 0 alice (by decide) (by decide) (by decide)
    (by decide) (by decide)

end DockMon
